import Mathlib

/-!
Shallow embedding of the PromptsLib core engine:
* the threshold calibrator and capture-loop decision logic from
  `src/apps/desktop/src-tauri/src/main.rs` (`compute_threshold`,
  `classify_prompt_with_qwen` handling inside `start_clipboard_watcher`), and
* the local text-analysis pipeline from `src/crates/core/src/lib.rs`
  (`summarize_prompt_with_vocab` and its helpers).

Modelling conventions:
* Rust `f64` values (classifier confidences, grid thresholds, accuracies) are
  embedded as exact rationals `ℚ`.  Every comparison exercised by the claims
  (grid ordering, `conf >= t`, `acc > best.1` over counts divided by a fixed
  sample size) orders the corresponding doubles exactly as it orders these
  rationals, so the embedding is faithful on the claims' scope.
* `serde_json::Value` metadata is embedded as the inductive `JsonVal` below,
  with the `get`/`as_bool`/`as_i64`/`as_f64`/`as_object` accessors used by
  `compute_threshold`.
* Mutex lock acquisition is modelled as always succeeding (lock poisoning is
  out of scope); the shared threshold/counter/interval cell is the explicit
  `CalibState` record and one capture-loop classification step is the explicit
  state-transition function `clipboardStep`.
-/

/-- Embedding of the `serde_json::Value` shapes reachable in prompt metadata.
`vInt` is a JSON number stored as an integer (where `as_i64` succeeds), `vNum`
a non-integer JSON number (only `as_f64` succeeds, modelled as an exact
rational). -/
inductive JsonVal where
  | vNull : JsonVal
  | vBool : Bool → JsonVal
  | vInt : Int → JsonVal
  | vNum : ℚ → JsonVal
  | vStr : String → JsonVal
  | vObj : List (String × JsonVal) → JsonVal
  | vArr : List JsonVal → JsonVal

/-- Field lookup in a JSON object's field list (first match wins, as in the
serde map). -/
def lookupField : List (String × JsonVal) → String → Option JsonVal
  | [], _ => none
  | (k, v) :: rest, key => if k = key then some v else lookupField rest key

/-- `Value::get(key)`: `Some` only on objects containing the key. -/
def JsonVal.get : JsonVal → String → Option JsonVal
  | .vObj fields, key => lookupField fields key
  | _, _ => none

/-- `Value::as_bool`. -/
def JsonVal.asBool : JsonVal → Option Bool
  | .vBool b => some b
  | _ => none

/-- `Value::as_i64`: succeeds only on integer-stored numbers. -/
def JsonVal.asI64 : JsonVal → Option Int
  | .vInt i => some i
  | _ => none

/-- `Value::as_f64`: succeeds on any JSON number (integers converted). -/
def JsonVal.asF64 : JsonVal → Option ℚ
  | .vInt i => some (i : ℚ)
  | .vNum q => some q
  | _ => none

/-- `Value::as_object`: the field list of an object. -/
def JsonVal.asObject : JsonVal → Option (List (String × JsonVal))
  | .vObj fields => some fields
  | _ => none

/-- Label extraction from prompt metadata (`compute_threshold`, main.rs):
`meta.get("is_prompt_label").and_then(as_bool)` falling back to
`meta.get("is_prompt_label").and_then(as_i64).map(|i| i != 0)`. -/
def extractLabel (meta : JsonVal) : Option Bool :=
  match (meta.get "is_prompt_label").bind JsonVal.asBool with
  | some b => some b
  | none => ((meta.get "is_prompt_label").bind JsonVal.asI64).map (fun i => i != 0)

/-- Sample derivation for one prompt record's metadata (`compute_threshold`,
main.rs lines 872-884): a `(label, model_flag, model_conf)` triple is produced
exactly when the metadata carries a usable `is_prompt_label` and a
`qwen_clipboard_pred` object with boolean `is_prompt` and numeric
`confidence`. -/
def extractSample (meta : JsonVal) : Option (Bool × Bool × ℚ) :=
  let label := extractLabel meta
  let predObj := (meta.get "qwen_clipboard_pred").bind JsonVal.asObject
  let modelFlag := predObj.bind (fun o => (lookupField o "is_prompt").bind JsonVal.asBool)
  let modelConf := predObj.bind (fun o => (lookupField o "confidence").bind JsonVal.asF64)
  match label, modelFlag, modelConf with
  | some lbl, some flag, some conf => some (lbl, flag, conf)
  | _, _, _ => none

/-- The sample list `compute_threshold` builds from the stored prompts
(in storage order, as the Rust loop pushes). -/
def deriveSamples (prompts : List JsonVal) : List (Bool × Bool × ℚ) :=
  prompts.filterMap extractSample

/-- Result record of the threshold search (`ThresholdSuggestion`, main.rs). -/
structure ThresholdSuggestion where
  best_threshold : ℚ
  accuracy : ℚ
  total : Nat
  positive : Nat
  negative : Nat
deriving DecidableEq, Repr

/-- The per-sample prediction rule of the calibrator (main.rs line 893):
`predicted_prompt = if !flag && conf >= t { false } else { true }`. -/
def predictedPrompt (flag : Bool) (conf t : ℚ) : Bool :=
  if flag = false ∧ conf ≥ t then false else true

/-- Number of samples whose prediction at threshold `t` matches the human
label. -/
def countCorrect (samples : List (Bool × Bool × ℚ)) (t : ℚ) : Nat :=
  (samples.filter (fun s => predictedPrompt s.2.1 s.2.2 t == s.1)).length

/-- Accuracy of threshold `t` on the sample set: `correct / samples.len()`. -/
def accuracyAt (samples : List (Bool × Bool × ℚ)) (t : ℚ) : ℚ :=
  (countCorrect samples t : ℚ) / (samples.length : ℚ)

/-- The candidate grid `[0.0, 0.1, ..., 1.0]` (main.rs line 888). -/
def thresholdGrid : List ℚ :=
  [0, 1/10, 2/10, 3/10, 4/10, 5/10, 6/10, 7/10, 8/10, 9/10, 1]

/-- One iteration of the grid scan: keep the candidate only on a strictly
higher accuracy (`acc > best.1`). -/
def bestStep (acc : ℚ → ℚ) (best : ℚ × ℚ) (t : ℚ) : ℚ × ℚ :=
  if best.2 < acc t then (t, acc t) else best

/-- The grid scan of `compute_threshold`, starting from `best = (0.0, 0.0)`. -/
def bestFold (samples : List (Bool × Bool × ℚ)) : ℚ × ℚ :=
  thresholdGrid.foldl (bestStep (accuracyAt samples)) (0, 0)

/-- `compute_threshold` (main.rs lines 870-910): derive the labeled samples
from prompt metadata, fail when none exist, otherwise grid-search the
accuracy-maximizing threshold. -/
def compute_threshold (prompts : List JsonVal) : Except String ThresholdSuggestion :=
  let samples := deriveSamples prompts
  if samples.isEmpty then
    .error "no labeled samples with model prediction"
  else
    let best := bestFold samples
    .ok { best_threshold := best.1
          accuracy := best.2
          total := samples.length
          positive := (samples.filter (fun s => s.1)).length
          negative := (samples.filter (fun s => !s.1)).length }

/-- Whether a `compute_threshold` call failed. -/
def isErr : Except String ThresholdSuggestion → Bool
  | .error _ => true
  | .ok _ => false

/-- The shared calibration state: live confidence threshold, auto-optimize
counter, and configured interval (main.rs `QwenCtx` / `AppState`). -/
structure CalibState where
  threshold : ℚ
  counter : Nat
  interval : Nat
deriving DecidableEq, Repr

/-- One classification-handling step of the clipboard capture loop
(main.rs lines 706-746), given the current stored prompts, the calibration
state and the remote classifier's outcome (`none` models a failed call).
Returns the new state and whether the text is accepted, i.e. whether control
continues to local analysis and storage. On `some (flag, conf)`: the text is
skipped when `!flag && conf >= threshold`; otherwise the optimize counter is
incremented and, once it reaches `max interval 1`, it is reset and a
`compute_threshold` run over the full stored history replaces the threshold on
success (an `Err` leaves it unchanged). On `none` the loop falls through to
analysis (fail-open). -/
def clipboardStep (prompts : List JsonVal) (st : CalibState)
    (classification : Option (Bool × ℚ)) : CalibState × Bool :=
  match classification with
  | none => (st, true)
  | some (flag, conf) =>
    if flag = false ∧ conf ≥ st.threshold then
      (st, false)
    else
      let counter := st.counter + 1
      let intervalVal := max st.interval 1
      if counter ≥ intervalVal then
        match compute_threshold prompts with
        | .ok s => ({ st with counter := 0, threshold := s.best_threshold }, true)
        | .error _ => ({ st with counter := 0 }, true)
      else
        ({ st with counter := counter }, true)

/-- Metadata of the three prompts of end-to-end scenario 3:
samples `(label, flag, conf)` = `(true,true,0.9)`, `(false,false,0.8)`,
`(false,false,0.3)`. -/
def scenario3Prompts : List JsonVal :=
  [ .vObj [("is_prompt_label", .vBool true),
      ("qwen_clipboard_pred",
        .vObj [("is_prompt", .vBool true), ("confidence", .vNum (mkRat 9 10))])],
    .vObj [("is_prompt_label", .vBool false),
      ("qwen_clipboard_pred",
        .vObj [("is_prompt", .vBool false), ("confidence", .vNum (mkRat 8 10))])],
    .vObj [("is_prompt_label", .vBool false),
      ("qwen_clipboard_pred",
        .vObj [("is_prompt", .vBool false), ("confidence", .vNum (mkRat 3 10))])] ]

instance : DecidableEq (Except String ThresholdSuggestion) := fun
  | .ok a, .ok b => decidable_of_iff (a = b) (by simp)
  | .error a, .error b => decidable_of_iff (a = b) (by simp)
  | .ok _, .error _ => .isFalse (by simp)
  | .error _, .ok _ => .isFalse (by simp)

/-!
Embedding of the local analysis pipeline (`src/crates/core/src/lib.rs`,
module `analysis`).  Strings are processed through their `List Char` views;
Rust byte lengths (`str::len`) are `String.utf8ByteSize`, Rust char counts
(`chars().count()`) are list lengths.  Rust's `String` ordering (byte-wise
lexicographic on UTF-8) coincides with the codepoint-lexicographic order on
Lean strings, which is used here.  The `jieba` segmentation step is external
to the repository and is a parameter `cut`; the `uuid` identifier field is
generated randomness and is omitted from the analysis record, matching the
spec's exclusion of identifiers from every property.  The iteration order of
the Rust `HashMap` over token frequencies is the parameter `reorder`, applied
to the insertion-ordered association list before ranking.
-/

/-- Unicode white-space (codepoints with the White_Space property), the set
used by Rust's `char::is_whitespace`, `str::trim` and `split_whitespace`. -/
def isRustWhite (c : Char) : Bool :=
  [9, 10, 11, 12, 13, 32, 133, 160, 5760, 8192, 8193, 8194, 8195, 8196, 8197,
    8198, 8199, 8200, 8201, 8202, 8232, 8233, 8239, 8287, 12288].contains c.toNat

/-- Rust `to_lowercase`, modelled per character (`Char.toLower` lowercases
exactly the ASCII uppercase range; CJK characters are unaffected, matching
Rust on the ASCII and CJK text this pipeline handles). -/
def toLowerStr (s : String) : String := String.mk (s.toList.map Char.toLower)

/-- Rust `char::is_ascii`: codepoint at most 127. -/
def isAsciiChar (c : Char) : Bool := c.toNat ≤ 127

/-- Rust `char::is_ascii_punctuation`: `!..\/`, `:..@`, `[..`\``, `{..~`. -/
def isAsciiPunct (c : Char) : Bool :=
  (33 ≤ c.toNat && c.toNat ≤ 47) || (58 ≤ c.toNat && c.toNat ≤ 64) ||
  (91 ≤ c.toNat && c.toNat ≤ 96) || (123 ≤ c.toNat && c.toNat ≤ 126)

/-- The characters stripped by `trim_punctuation` (lib.rs lines 295-313):
ASCII punctuation plus the listed CJK punctuation marks. -/
def isPunctChar (c : Char) : Bool :=
  isAsciiPunct c ||
  [0xff0c, 0x3002, 0xff01, 0xff1f, 0x3001, 0xff1b, 0xff1a, 0xff08, 0xff09,
    0x3010, 0x3011].contains c.toNat

/-- Drop characters satisfying `p` from both ends of a character list, the
shape of Rust's `trim_matches`/`trim`. -/
def trimEnds (p : Char → Bool) (l : List Char) : List Char :=
  ((l.dropWhile p).reverse.dropWhile p).reverse

/-- Rust `str::trim` on a character list. -/
def trimChars (l : List Char) : List Char := trimEnds isRustWhite l

/-- Rust `str::trim` on strings. -/
def trimString (s : String) : String := String.mk (trimChars s.toList)

/-- `trim_punctuation` (lib.rs): strip leading/trailing punctuation. -/
def trim_punctuation (s : String) : String := String.mk (trimEnds isPunctChar s.toList)

/-- Split a character list at every character satisfying `p`, keeping empty
pieces — the semantics of Rust's `str::split`. -/
def splitOnPred (p : Char → Bool) : List Char → List (List Char)
  | [] => [[]]
  | c :: rest =>
    if p c then [] :: splitOnPred p rest
    else
      match splitOnPred p rest with
      | [] => [[c]]
      | l :: ls => (c :: l) :: ls

/-- Strip one trailing carriage return, as Rust's `str::lines` does per line. -/
def stripCr (l : List Char) : List Char :=
  if l.getLast? = some '\r' then l.dropLast else l

/-- Rust `str::lines` without the `\r`-stripping: split on `'\n'` with split
terminator semantics (no trailing empty piece, empty input gives no lines). -/
def rustLines : List Char → List (List Char)
  | [] => []
  | c :: rest =>
    if c = '\n' then [] :: rustLines rest
    else
      match rustLines rest with
      | [] => [[c]]
      | l :: ls => (c :: l) :: ls

/-- Rust `str::contains` for substring needles (any occurrence): scan for a
position where the needle is a prefix of the remaining haystack. -/
def containsSub (needle : List Char) : List Char → Bool
  | [] => needle.isEmpty
  | c :: t => if needle.isPrefixOf (c :: t) then true else containsSub needle t

/-- Rust `str::contains` on strings. -/
def containsStr (hay needle : String) : Bool := containsSub needle.toList hay.toList

/-- Rust `str::replacen(needle, "", 1)`: remove the first occurrence of
`needle`. -/
def removeFirst (needle : List Char) : List Char → List Char
  | [] => []
  | c :: t =>
    if needle.isPrefixOf (c :: t) then (c :: t).drop needle.length
    else c :: removeFirst needle t

/-- Left-to-right non-overlapping occurrence scan for a non-empty needle
(the counting behaviour of Rust `str::match_indices`), with a fuel argument
bounding the scan positions; each step consumes at least one haystack
character, so fuel `hay.length` is exact. -/
def countOccsAux (needle : List Char) : Nat → List Char → Nat
  | 0, _ => 0
  | _, [] => 0
  | fuel + 1, c :: rest =>
    if needle.isPrefixOf (c :: rest) then
      1 + countOccsAux needle fuel (rest.drop (needle.length - 1))
    else countOccsAux needle fuel rest

/-- Number of matches of `str::match_indices`: for the empty needle, one
match per char boundary. -/
def countOccs (hay needle : List Char) : Nat :=
  if needle = [] then hay.length + 1 else countOccsAux needle hay.length hay

/-- Rust byte length `str::len`. -/
def byteLen (s : String) : Nat := s.utf8ByteSize

/-- The `STOPWORDS` set (lib.rs lines 9-52). -/
def STOPWORDS : List String :=
  ["", "的", "了", "和", "与", "在", "及", "以及", "需要", "我们", "用户",
   "进行", "希望", "请", "使用", "这个", "那个", "这些", "那些", "一下",
   "一个", "如何", "怎么", "吗", "呢", "啊", "哦",
   "the", "and", "or", "for", "with", "into", "from", "to", "of", "is", "are"]

/-- The `TARGET_MARKERS` array (lib.rs lines 53-61). -/
def TARGET_MARKERS : List String :=
  ["面向", "针对", "给", "为", "适合", "提供给", "适用于"]

/-- `is_meaningful_str` (lib.rs lines 269-278). -/
def is_meaningful_str (token : String) : Bool :=
  let trimmed := trim_punctuation token
  if trimmed = "" then false
  else if trimmed.toList.all (·.isDigit) then false
  else decide (trimmed.toList.length > 1) || decide (byteLen trimmed > 3)

/-- `is_meaningful` (lib.rs lines 265-267), an alias. -/
def is_meaningful (token : String) : Bool := is_meaningful_str token

/-- `is_numeric_token` (lib.rs lines 280-289). -/
def is_numeric_token (token : String) : Bool :=
  let trimmed := trim_punctuation token
  if trimmed = "" then false
  else if trimmed.toList.all (·.isDigit) then true
  else trimmed.toList.any (·.isDigit)

/-- `is_noise_ascii` (lib.rs lines 291-293): byte length at most 1, or all
ASCII digits. -/
def is_noise_ascii (token : String) : Bool :=
  byteLen token ≤ 1 || token.toList.all (·.isDigit)

/-- `normalize_token` (lib.rs lines 315-325). -/
def normalize_token (token : String) : String :=
  let cleaned := trim_punctuation token
  if cleaned = "" then ""
  else if cleaned.toList.all isAsciiChar then toLowerStr cleaned
  else cleaned

/-- `tokenize` (lib.rs lines 114-144), parameterized by the external jieba
segmentation `cut`.  All-ASCII segments are whitespace-split, punctuation
trimmed, lowercased and noise-filtered; other segments are punctuation
trimmed only. -/
def tokenize (cut : String → List String) (text : String) : List String :=
  if text = "" then []
  else
    (cut text).flatMap fun token =>
      if token = "" then []
      else if token.toList.all isAsciiChar then
        (((((splitOnPred isRustWhite token.toList).map String.mk).filter
            (fun t => !(t == ""))).map trim_punctuation).filter
            (fun t => !(t == ""))).map toLowerStr |>.filter
            (fun t => !(is_noise_ascii t))
      else
        let cleaned := trim_punctuation token
        if cleaned = "" then [] else [cleaned]

/-- Add `n` to key `k` in an insertion-ordered association list — the
effect of `*freq.entry(k).or_insert(0) += n` on the `HashMap`. -/
def bump (m : List (String × Nat)) (k : String) (n : Nat) : List (String × Nat) :=
  match m with
  | [] => [(k, n)]
  | (k', v) :: rest => if k' = k then (k', v + n) :: rest else (k', v) :: bump rest k n

/-- `boost_vocabulary_terms` (lib.rs lines 177-201).  Rust's Unicode
`to_lowercase` is modelled per-char (identical on ASCII and CJK text). -/
def boost_vocabulary_terms (freq : List (String × Nat)) (text : String)
    (vocabulary : List String) : List (String × Nat) :=
  if vocabulary = [] ∨ text = "" then freq
  else
    let lowerText := toLowerStr text
    vocabulary.foldl
      (fun freq term =>
        let cleaned := trimString term
        if cleaned = "" then freq
        else
          let isAscii := cleaned.toList.all isAsciiChar
          let normalized := normalize_token cleaned
          let haystack := if isAscii then lowerText else text
          let needle := if isAscii then normalized else cleaned
          let count := countOccs haystack.toList needle.toList
          if count > 0 then bump freq normalized (count * 3) else freq)
      freq

/-- Lexicographic comparison of character lists by codepoint, the order
underlying Rust's `String` `Ord` (byte-wise lexicographic on UTF-8 equals
codepoint-wise lexicographic). -/
def strLeChars : List Char → List Char → Bool
  | [], _ => true
  | _ :: _, [] => false
  | c :: as, d :: bs =>
    if c.toNat < d.toNat then true
    else if d.toNat < c.toNat then false
    else strLeChars as bs

/-- Rust `String` ordering `a <= b`. -/
def strLe (a b : String) : Bool := strLeChars a.toList b.toList

/-- The ranking order of `extract_keywords` (lib.rs lines 162-167):
higher count first, then longer byte length (`String::len`), then
lexicographically smaller token first. -/
def kwRel (a b : String × Nat) : Prop :=
  b.2 < a.2 ∨ (a.2 = b.2 ∧
    (byteLen b.1 < byteLen a.1 ∨ (byteLen a.1 = byteLen b.1 ∧ strLe a.1 b.1 = true)))

instance : DecidableRel kwRel := fun a b => by
  unfold kwRel
  infer_instance

/-- The sort of `ranked.sort_by(...)`: a stable sort by the total order
`kwRel`. -/
def rankPairs (freq : List (String × Nat)) : List (String × Nat) :=
  List.insertionSort kwRel freq

/-- `extract_keywords` (lib.rs lines 146-175).  `reorder` is the arbitrary
iteration order of `freq.into_iter()` over the `HashMap`. -/
def extract_keywords (reorder : List (String × Nat) → List (String × Nat))
    (tokens : List String) (text : String) (vocabulary : List String) : List String :=
  let freq := tokens.foldl
    (fun m token =>
      if !(is_meaningful token) || is_numeric_token token then m
      else
        let normalized := normalize_token token
        if normalized = "" ∨ STOPWORDS.contains normalized then m
        else bump m normalized 1)
    []
  let freq := boost_vocabulary_terms freq text vocabulary
  let ranked := rankPairs (reorder freq)
  (((ranked.map Prod.fst).filter
      (fun token => decide (token.toList.length ≥ 2) || decide (byteLen token ≥ 4))).take 8)

/-- The scan loop of `extract_targets` (lib.rs lines 203-219): on a token
containing a marker, keep the meaningful remainder after removing the marker
once, else the next token when that is meaningful. -/
def extract_targets_go : List String → List String
  | [] => []
  | tok :: rest =>
    match TARGET_MARKERS.find? (fun m => containsStr tok m) with
    | some marker =>
      let tail := trimString (String.mk (removeFirst marker.toList tok.toList))
      if is_meaningful_str tail then normalize_token tail :: extract_targets_go rest
      else
        match rest with
        | next :: _ =>
          if is_meaningful next then normalize_token next :: extract_targets_go rest
          else extract_targets_go rest
        | [] => extract_targets_go rest
    | none => extract_targets_go rest

/-- Remove adjacent duplicates, Rust `Vec::dedup`. -/
def dedupAdj : List String → List String
  | [] => []
  | [a] => [a]
  | a :: b :: t => if a = b then dedupAdj (b :: t) else a :: dedupAdj (b :: t)

/-- `extract_targets` (lib.rs lines 203-223): scan, sort, dedup, cap at 5. -/
def extract_targets (tokens : List String) : List String :=
  (dedupAdj (List.insertionSort (fun a b => strLe a b = true)
    (extract_targets_go tokens))).take 5

/-- `derive_topic` (lib.rs lines 225-230): first non-empty trimmed line,
truncated to 32 chars. -/
def derive_topic (text : String) : Option String :=
  (((rustLines text.toList).map (fun l => trimChars (stripCr l))).find?
      (fun l => !(l.isEmpty))).map (fun l => String.mk (l.take 32))

/-- `derive_theme` (lib.rs lines 232-240): joined targets, else the first
non-"general" keyword, else the topic fallback. -/
def derive_theme (keywords targets : List String) (text : String) : Option String :=
  match targets with
  | _ :: _ => some (String.intercalate "、" targets)
  | [] =>
    match keywords.find? (fun token => !(token == "general")) with
    | some k => some k
    | none => derive_topic text

/-- The role indicator patterns of `derive_role` (lib.rs lines 244-252). -/
def rolePatterns : List String :=
  ["作为", "你是", "你将", "担任", "扮演", "role:", "角色"]

/-- `derive_role` (lib.rs lines 242-263): first clause of the 200-char window
(split on CJK/Latin sentence delimiters) containing a role pattern, truncated
to 48 chars, else the sentinel. -/
def derive_role (text : String) : String :=
  let window := text.toList.take 200
  let parts := (splitOnPred
      (fun c => c == '，' || c == '。' || c == '；' || c == '：' || c == '.' || c == ';')
      window).map trimChars
  match parts.find?
      (fun p => !(p.isEmpty) && rolePatterns.any (fun pat => containsSub pat.toList p)) with
  | some p => String.mk (p.take 48)
  | none => "空"

/-- The immutable analysis record (`PromptAnalysis`, lib.rs lines 63-74),
without the randomly generated `id` field. -/
structure PromptAnalysis where
  summary : String
  suggested_tags : List String
  length : Nat
  topic : Option String
  theme : Option String
  role : String
  target_entities : List String
deriving DecidableEq, Repr

/-- The fixed empty-input summary (lib.rs line 83). -/
def emptySummaryMsg : String := "请输入有效的提示词以触发分析"

/-- The fixed summary preamble (lib.rs line 87). -/
def summaryPreamble : String := "提示词概览："

/-- `summarize_prompt_with_vocab` (lib.rs lines 80-112): the analysis
assembler. `reorder` models the `HashMap` iteration order, `cut` the external
jieba segmenter. -/
def summarize_prompt_with_vocab (reorder : List (String × Nat) → List (String × Nat))
    (cut : String → List String) (body : String) (vocabulary : List String) :
    PromptAnalysis :=
  let normalized := trimString body
  let summary :=
    if normalized = "" then emptySummaryMsg
    else summaryPreamble ++ String.mk (normalized.toList.take 160)
  let tokens := tokenize cut normalized
  let keywords0 := extract_keywords reorder tokens normalized vocabulary
  let keywords := if keywords0 = [] then ["general"] else keywords0
  let target_entities := extract_targets tokens
  let theme := derive_theme keywords target_entities normalized
  let topic :=
    match theme with
    | some th => some th
    | none => derive_topic normalized
  let role := derive_role normalized
  { summary := summary
    suggested_tags := keywords
    length := normalized.toList.length
    topic := topic
    theme := theme
    role := role
    target_entities := target_entities }

/-- Modelled from the spec: the jieba segmentation dictionary and algorithm
are not part of the repository's sources.  Section 4.1 of the spec states
that pure-ASCII runs are split on whitespace; for an all-ASCII input the
tokenizer's ASCII branch performs exactly that split on each segment, so
returning the whole text as a single segment realizes the specified
behaviour on ASCII-only inputs.  `cutModel` is used only on such inputs. -/
def cutModel : String → List String := fun text => [text]

/-- Totality of the keyword ranking order: the comparator of
`ranked.sort_by` always orders one way or the other. -/
instance : IsTotal (String × Nat) kwRel := ⟨by
  have hstr : ∀ a b : List Char, strLeChars a b = true ∨ strLeChars b a = true := by
    intro a
    induction a with
    | nil => intro b; left; rfl
    | cons c as ih =>
      intro b
      cases b with
      | nil => right; rfl
      | cons d bs =>
        rcases Nat.lt_trichotomy c.toNat d.toNat with h | h | h
        · left
          simp only [strLeChars, if_pos h]
        · rcases ih bs with h2 | h2
          · left
            simp only [strLeChars, if_neg (by omega : ¬c.toNat < d.toNat),
              if_neg (by omega : ¬d.toNat < c.toNat)]
            exact h2
          · right
            simp only [strLeChars, if_neg (by omega : ¬d.toNat < c.toNat),
              if_neg (by omega : ¬c.toNat < d.toNat)]
            exact h2
        · right
          simp only [strLeChars, if_pos h]
  intro a b
  rcases Nat.lt_trichotomy a.2 b.2 with h | h | h
  · right
    exact Or.inl h
  · rcases Nat.lt_trichotomy (byteLen a.1) (byteLen b.1) with h2 | h2 | h2
    · right
      exact Or.inr ⟨h.symm, Or.inl h2⟩
    · rcases hstr a.1.toList b.1.toList with h3 | h3
      · left
        exact Or.inr ⟨h, Or.inr ⟨h2, h3⟩⟩
      · right
        exact Or.inr ⟨h.symm, Or.inr ⟨h2.symm, h3⟩⟩
    · left
      exact Or.inr ⟨h, Or.inl h2⟩
  · left
    exact Or.inl h⟩

/-- Transitivity of the keyword ranking order. -/
instance : IsTrans (String × Nat) kwRel := ⟨by
  have hstr : ∀ a b c : List Char,
      strLeChars a b = true → strLeChars b c = true → strLeChars a c = true := by
    intro a
    induction a with
    | nil => intro b c _ _; rfl
    | cons x as ih =>
      intro b c hab hbc
      cases b with
      | nil => simp [strLeChars] at hab
      | cons y bs =>
        cases c with
        | nil => simp [strLeChars] at hbc
        | cons z cs =>
          simp only [strLeChars] at hab hbc ⊢
          by_cases h1 : x.toNat < y.toNat
          · by_cases h2 : y.toNat < z.toNat
            · rw [if_pos (by omega : x.toNat < z.toNat)]
            · by_cases h3 : z.toNat < y.toNat
              · rw [if_neg h2, if_pos h3] at hbc
                exact absurd hbc (by simp)
              · rw [if_pos (by omega : x.toNat < z.toNat)]
          · by_cases h4 : y.toNat < x.toNat
            · rw [if_neg h1, if_pos h4] at hab
              exact absurd hab (by simp)
            · rw [if_neg h1, if_neg h4] at hab
              by_cases h2 : y.toNat < z.toNat
              · rw [if_pos (by omega : x.toNat < z.toNat)]
              · by_cases h3 : z.toNat < y.toNat
                · rw [if_neg h2, if_pos h3] at hbc
                  exact absurd hbc (by simp)
                · rw [if_neg h2, if_neg h3] at hbc
                  rw [if_neg (by omega : ¬x.toNat < z.toNat),
                    if_neg (by omega : ¬z.toNat < x.toNat)]
                  exact ih bs cs hab hbc
  intro a b c hab hbc
  rcases hab with h1 | ⟨h1, h1s⟩
  · rcases hbc with h2 | ⟨h2, h2s⟩
    · exact Or.inl (lt_trans h2 h1)
    · exact Or.inl (h2 ▸ h1)
  · rcases hbc with h2 | ⟨h2, h2s⟩
    · exact Or.inl (lt_of_lt_of_le h2 (le_of_eq h1.symm))
    · refine Or.inr ⟨h1.trans h2, ?_⟩
      rcases h1s with hl1 | ⟨hl1, hs1⟩
      · rcases h2s with hl2 | ⟨hl2, hs2⟩
        · exact Or.inl (lt_trans hl2 hl1)
        · exact Or.inl (hl2 ▸ hl1)
      · rcases h2s with hl2 | ⟨hl2, hs2⟩
        · exact Or.inl (lt_of_lt_of_le hl2 (le_of_eq hl1.symm))
        · exact Or.inr ⟨hl1.trans hl2, hstr _ _ _ hs1 hs2⟩⟩

/-- Antisymmetry of the keyword ranking order: two mutually related pairs are
equal (the final lexicographic tie-break separates distinct tokens). -/
instance : IsAntisymm (String × Nat) kwRel := ⟨by
  have hstr : ∀ a b : List Char,
      strLeChars a b = true → strLeChars b a = true → a = b := by
    intro a
    induction a with
    | nil =>
      intro b _ hba
      cases b with
      | nil => rfl
      | cons d bs => simp [strLeChars] at hba
    | cons c as ih =>
      intro b hab hba
      cases b with
      | nil => simp [strLeChars] at hab
      | cons d bs =>
        simp only [strLeChars] at hab hba
        by_cases h1 : c.toNat < d.toNat
        · rw [if_neg (by omega : ¬d.toNat < c.toNat), if_pos h1] at hba
          exact absurd hba (by simp)
        · by_cases h2 : d.toNat < c.toNat
          · rw [if_neg h1, if_pos h2] at hab
            exact absurd hab (by simp)
          · rw [if_neg h1, if_neg h2] at hab
            rw [if_neg h2, if_neg h1] at hba
            have hn : c.toNat = d.toNat := by omega
            have hcd : c = d := Char.eq_of_val_eq (UInt32.ext hn)
            rw [hcd, ih bs hab hba]
  intro a b hab hba
  rcases hab with h1 | ⟨h1, h1s⟩
  · rcases hba with h2 | ⟨h2, h2s⟩
    · exact absurd (lt_trans h1 h2) (lt_irrefl _)
    · exact absurd h1 (by omega)
  · rcases hba with h2 | ⟨h2, h2s⟩
    · exact absurd h2 (by omega)
    · rcases h1s with hl1 | ⟨hl1, hs1⟩
      · rcases h2s with hl2 | ⟨hl2, hs2⟩
        · exact absurd (lt_trans hl1 hl2) (lt_irrefl _)
        · exact absurd hl1 (by omega)
      · rcases h2s with hl2 | ⟨hl2, hs2⟩
        · exact absurd hl2 (by omega)
        · have hs : a.1 = b.1 := String.ext (hstr _ _ hs1 hs2)
          exact Prod.ext hs h1⟩

/-!
Helper lemmas.
-/

lemma accuracyAt_eq (s : List (Bool × Bool × ℚ)) (t : ℚ) :
    accuracyAt s t = mkRat (countCorrect s t) s.length := by
  rw [accuracyAt, Rat.mkRat_eq_div]
  norm_num

lemma thresholdGrid_eq :
    thresholdGrid = [0, mkRat 1 10, mkRat 2 10, mkRat 3 10, mkRat 4 10, mkRat 5 10,
      mkRat 6 10, mkRat 7 10, mkRat 8 10, mkRat 9 10, 1] := by
  simp only [thresholdGrid, Rat.mkRat_eq_div]
  norm_num

lemma scenario3_samples : deriveSamples scenario3Prompts =
    [(true, true, mkRat 9 10), (false, false, mkRat 8 10), (false, false, mkRat 3 10)] := by
  decide

set_option maxRecDepth 10000 in
lemma scenario3_result : compute_threshold scenario3Prompts = .ok ⟨0, 1, 3, 1, 2⟩ := by
  simp only [compute_threshold, scenario3_samples, bestFold, thresholdGrid_eq,
    List.foldl_cons, List.foldl_nil, bestStep, accuracyAt_eq]
  decide

lemma accuracyAt_nonneg (s : List (Bool × Bool × ℚ)) (t : ℚ) : 0 ≤ accuracyAt s t :=
  div_nonneg (Nat.cast_nonneg _) (Nat.cast_nonneg _)

/-- Claim C1 (counterexample): on the scenario-3 samples `(true,true,0.9)`,
`(false,false,0.8)`, `(false,false,0.3)`, `compute_threshold` returns best
threshold `0.0` (with accuracy `1.0`), and `0.0` is not in `{0.4, ..., 0.8}`,
refuting the claimed threshold range. -/
theorem c1_counterexample :
    compute_threshold scenario3Prompts = .ok ⟨0, 1, 3, 1, 2⟩ ∧
    (0 : ℚ) ∉ ([4/10, 5/10, 6/10, 7/10, 8/10] : List ℚ) := by
  refine ⟨scenario3_result, ?_⟩
  norm_num

/-- Claim C1 (amended): on the scenario-3 samples the threshold search
returns best threshold `0.0` — the lowest grid value — with accuracy `1.0`
over 3 samples (1 positive, 2 negative). -/
theorem c1_amended_thm :
    ∃ s, compute_threshold scenario3Prompts = .ok s ∧
      s.best_threshold = 0 ∧ s.accuracy = 1 ∧ s.total = 3 ∧
      s.positive = 1 ∧ s.negative = 2 :=
  ⟨⟨0, 1, 3, 1, 2⟩, scenario3_result, rfl, rfl, rfl, rfl, rfl⟩

/-- Claim C4: the capture loop accepts on a live classification `(flag, conf)`
exactly unless `flag` is false and `conf` is at least the current threshold,
and accepts (fail-open) whenever the remote classifier call fails. -/
theorem c4_thm (ps : List JsonVal) (st : CalibState) (flag : Bool) (conf : ℚ) :
    (clipboardStep ps st none).2 = true ∧
    (clipboardStep ps st (some (flag, conf))).2 =
      !(!flag && decide (conf ≥ st.threshold)) := by
  refine ⟨rfl, ?_⟩
  by_cases h : flag = false ∧ conf ≥ st.threshold
  · simp [clipboardStep, h, h.1, h.2]
  · rw [clipboardStep]
    rw [if_neg h]
    have hr : (!flag && decide (conf ≥ st.threshold)) = false := by
      cases flag
      · have hnc : ¬(conf ≥ st.threshold) := fun hc => h ⟨rfl, hc⟩
        simp [hnc]
      · simp
    rw [hr]
    by_cases hc : st.counter + 1 ≥ max st.interval 1
    · cases hcp : compute_threshold ps <;> simp [hc, hcp]
    · simp [hc]

/-- Witness for C4 at a concrete state and classification. -/
theorem c4_witness :
    (clipboardStep [] ⟨mkRat 1 2, 0, 3⟩ none).2 = true ∧
    (clipboardStep [] ⟨mkRat 1 2, 0, 3⟩ (some (false, mkRat 9 10))).2 =
      !(!false && decide ((mkRat 9 10 : ℚ) ≥ (⟨mkRat 1 2, 0, 3⟩ : CalibState).threshold)) :=
  c4_thm [] ⟨mkRat 1 2, 0, 3⟩ false (mkRat 9 10)

/-- Claim C5 (counterexample): a step in which the remote classifier does
return a result — `(false, 0.9)` against threshold `0.5` — leaves the
auto-recalibration counter unchanged at `0` (the text is rejected before the
counter increment), refuting "incremented on every classified step". -/
theorem c5_counterexample :
    clipboardStep [] ⟨mkRat 1 2, 0, 3⟩ (some (false, mkRat 9 10)) =
      (⟨mkRat 1 2, 0, 3⟩, false) ∧
    (clipboardStep [] ⟨mkRat 1 2, 0, 3⟩ (some (false, mkRat 9 10))).1.counter ≠
      (⟨mkRat 1 2, 0, 3⟩ : CalibState).counter + 1 := by
  constructor
  · decide
  · decide

/-- Claim C5 (amended): on every capture-loop step in which the remote
classifier returns a result AND the text is accepted (not skipped as
non-prompt), the counter is incremented; once it reaches the interval
(clamped to at least 1) it is reset to zero and `compute_threshold` runs over
the full history, replacing the live threshold on success and leaving it
unchanged on failure. -/
theorem c5_amended_thm (ps : List JsonVal) (st : CalibState) (flag : Bool) (conf : ℚ)
    (hacc : ¬(flag = false ∧ conf ≥ st.threshold)) :
    (st.counter + 1 < max st.interval 1 →
      clipboardStep ps st (some (flag, conf)) = ({ st with counter := st.counter + 1 }, true)) ∧
    (max st.interval 1 ≤ st.counter + 1 →
      (clipboardStep ps st (some (flag, conf))).1.counter = 0 ∧
      (clipboardStep ps st (some (flag, conf))).2 = true ∧
      (∀ s, compute_threshold ps = .ok s →
        (clipboardStep ps st (some (flag, conf))).1.threshold = s.best_threshold) ∧
      (isErr (compute_threshold ps) = true →
        (clipboardStep ps st (some (flag, conf))).1.threshold = st.threshold)) := by
  rw [clipboardStep]
  rw [if_neg hacc]
  constructor
  · intro hlt
    have hc : ¬(st.counter + 1 ≥ max st.interval 1) := not_le.mpr hlt
    simp [hc]
  · intro hge
    have hc : st.counter + 1 ≥ max st.interval 1 := hge
    cases hcp : compute_threshold ps with
    | ok s => simp [hc, hcp, isErr]
    | error e => simp [hc, hcp, isErr]

/-- Witness for C5 (amended) at a concrete accepted classification. -/
theorem c5_amended_witness :
    (clipboardStep [] ⟨mkRat 1 2, 0, 1⟩ (some (true, 0))).1.counter = 0 ∧
    (clipboardStep [] ⟨mkRat 1 2, 0, 1⟩ (some (true, 0))).1.threshold =
      (⟨mkRat 1 2, 0, 1⟩ : CalibState).threshold := by
  have h := c5_amended_thm [] ⟨mkRat 1 2, 0, 1⟩ true 0 (by simp)
  obtain ⟨h1, h2, h3, h4⟩ := h.2 (by decide)
  exact ⟨h1, h4 (by decide)⟩

/-- Claim C6: `compute_threshold` fails exactly when no stored record yields
a labeled sample (a human label together with a remote prediction carrying a
confidence), and in that failure case no capture-loop step changes the live
threshold. -/
theorem c6_thm (ps : List JsonVal) (st : CalibState) :
    (isErr (compute_threshold ps) = true ↔ ∀ meta ∈ ps, extractSample meta = none) ∧
    (isErr (compute_threshold ps) = true →
      ∀ cls, (clipboardStep ps st cls).1.threshold = st.threshold) := by
  have hiff : isErr (compute_threshold ps) = true ↔ ∀ meta ∈ ps, extractSample meta = none := by
    rw [compute_threshold]
    by_cases he : (deriveSamples ps).isEmpty = true
    · rw [if_pos he]
      simp only [isErr, true_iff]
      rw [List.isEmpty_iff] at he
      exact List.filterMap_eq_nil_iff.mp he
    · rw [if_neg he]
      simp only [isErr, Bool.false_eq_true, false_iff]
      intro hall
      exact he (List.isEmpty_iff.mpr (List.filterMap_eq_nil_iff.mpr hall))
  refine ⟨hiff, ?_⟩
  intro herr cls
  cases cls with
  | none => rfl
  | some fc =>
    obtain ⟨flag, conf⟩ := fc
    rw [clipboardStep]
    by_cases hrej : flag = false ∧ conf ≥ st.threshold
    · rw [if_pos hrej]
    · rw [if_neg hrej]
      by_cases hc : st.counter + 1 ≥ max st.interval 1
      · cases hcp : compute_threshold ps with
        | ok s => rw [hcp] at herr; exact absurd herr (by simp [isErr])
        | error e => simp [hc, hcp]
      · simp [hc]

/-- Witness for C6 at the empty store. -/
theorem c6_witness :
    (isErr (compute_threshold []) = true ↔ ∀ meta ∈ ([] : List JsonVal), extractSample meta = none) ∧
    (isErr (compute_threshold []) = true →
      ∀ cls, (clipboardStep [] ⟨mkRat 1 2, 0, 1⟩ cls).1.threshold =
        (⟨mkRat 1 2, 0, 1⟩ : CalibState).threshold) :=
  c6_thm [] ⟨mkRat 1 2, 0, 1⟩

/-- Invariant of the grid scan: folding `bestStep` over a sorted candidate
list starting from a best pair that records its own accuracy and precedes the
remaining candidates yields the least candidate attaining the maximal
accuracy seen (updates happen only on a strict improvement). -/
lemma bestStep_foldl_spec (acc : ℚ → ℚ) :
    ∀ (g : List ℚ) (b : ℚ × ℚ), acc b.1 = b.2 → (∀ t ∈ g, b.1 ≤ t) →
      g.Pairwise (· ≤ ·) →
      acc (g.foldl (bestStep acc) b).1 = (g.foldl (bestStep acc) b).2 ∧
      b.2 ≤ (g.foldl (bestStep acc) b).2 ∧
      (g.foldl (bestStep acc) b = b ∨
        ((g.foldl (bestStep acc) b).1 ∈ g ∧ b.2 < (g.foldl (bestStep acc) b).2)) ∧
      (∀ t ∈ g, acc t ≤ (g.foldl (bestStep acc) b).2) ∧
      (∀ t ∈ g, acc t = (g.foldl (bestStep acc) b).2 → (g.foldl (bestStep acc) b).1 ≤ t) := by
  intro g
  induction g with
  | nil =>
    intro b hb _ _
    exact ⟨hb, le_refl _, Or.inl rfl, by simp, by simp⟩
  | cons t0 g' ih =>
    intro b hb hble hpair
    rw [List.foldl_cons]
    obtain ⟨hhead, htail⟩ := List.pairwise_cons.mp hpair
    by_cases hlt : b.2 < acc t0
    · have hstep : bestStep acc b t0 = (t0, acc t0) := by
        rw [bestStep, if_pos hlt]
      rw [hstep]
      obtain ⟨A, B, C, D, E⟩ := ih (t0, acc t0) rfl hhead htail
      refine ⟨A, le_trans (le_of_lt hlt) B, ?_, ?_, ?_⟩
      · rcases C with hC | hC
        · exact Or.inr ⟨by rw [hC]; exact List.mem_cons_self _ _, by rw [hC]; exact hlt⟩
        · exact Or.inr ⟨List.mem_cons_of_mem _ hC.1, lt_trans hlt hC.2⟩
      · intro t ht
        rcases List.mem_cons.mp ht with rfl | ht'
        · exact B
        · exact D t ht'
      · intro t ht heq
        rcases List.mem_cons.mp ht with rfl | ht'
        · rcases C with hC | hC
          · rw [hC]
          · exact absurd hC.2 (not_lt.mpr (le_of_eq heq.symm))
        · exact E t ht' heq
    · have hstep : bestStep acc b t0 = b := by
        rw [bestStep, if_neg hlt]
      rw [hstep]
      push_neg at hlt
      obtain ⟨A, B, C, D, E⟩ :=
        ih b hb (fun t ht => hble t (List.mem_cons_of_mem _ ht)) htail
      refine ⟨A, B, ?_, ?_, ?_⟩
      · rcases C with hC | hC
        · exact Or.inl hC
        · exact Or.inr ⟨List.mem_cons_of_mem _ hC.1, hC.2⟩
      · intro t ht
        rcases List.mem_cons.mp ht with rfl | ht'
        · exact le_trans hlt B
        · exact D t ht'
      · intro t ht heq
        rcases List.mem_cons.mp ht with rfl | ht'
        · rcases C with hC | hC
          · rw [hC]
            exact hble t (List.mem_cons_self _ _)
          · exact absurd hC.2 (not_lt.mpr (by rw [← heq]; exact hlt))
        · exact E t ht' heq

set_option maxRecDepth 10000 in
lemma gridTail_nonneg :
    ∀ t ∈ [mkRat 1 10, mkRat 2 10, mkRat 3 10, mkRat 4 10, mkRat 5 10,
      mkRat 6 10, mkRat 7 10, mkRat 8 10, mkRat 9 10, (1 : ℚ)], (0 : ℚ) ≤ t := by
  decide

set_option maxRecDepth 10000 in
lemma gridTail_sorted :
    List.Pairwise (· ≤ ·) [mkRat 1 10, mkRat 2 10, mkRat 3 10, mkRat 4 10, mkRat 5 10,
      mkRat 6 10, mkRat 7 10, mkRat 8 10, mkRat 9 10, (1 : ℚ)] := by
  decide

/-- The grid-scan result of `compute_threshold`, characterized: the returned
threshold is a grid value whose accuracy is the reported accuracy, that
accuracy is maximal over the grid, and among grid values attaining it the
returned threshold is the least. -/
lemma bestFold_spec (samples : List (Bool × Bool × ℚ)) :
    (bestFold samples).1 ∈ thresholdGrid ∧
    (bestFold samples).2 = accuracyAt samples (bestFold samples).1 ∧
    (∀ t ∈ thresholdGrid, accuracyAt samples t ≤ (bestFold samples).2) ∧
    (∀ t ∈ thresholdGrid, accuracyAt samples t = (bestFold samples).2 →
      (bestFold samples).1 ≤ t) := by
  have hgrid : thresholdGrid = 0 :: [mkRat 1 10, mkRat 2 10, mkRat 3 10, mkRat 4 10,
      mkRat 5 10, mkRat 6 10, mkRat 7 10, mkRat 8 10, mkRat 9 10, (1 : ℚ)] :=
    thresholdGrid_eq
  set acc := accuracyAt samples with hacc
  have hbf : bestFold samples =
      List.foldl (bestStep acc)
        (bestStep acc (0, 0) 0)
        [mkRat 1 10, mkRat 2 10, mkRat 3 10, mkRat 4 10, mkRat 5 10,
          mkRat 6 10, mkRat 7 10, mkRat 8 10, mkRat 9 10, (1 : ℚ)] := by
    rw [bestFold, hgrid, List.foldl_cons]
  by_cases h0 : (0 : ℚ) < acc 0
  · have hstep : bestStep acc (0, 0) 0 = (0, acc 0) := by
      rw [bestStep, if_pos h0]
    rw [hstep] at hbf
    obtain ⟨A, B, C, D, E⟩ :=
      bestStep_foldl_spec acc _ (0, acc 0) rfl gridTail_nonneg gridTail_sorted
    rw [← hbf] at A B C D E
    refine ⟨?_, A.symm, ?_, ?_⟩
    · rcases C with hC | hC
      · rw [hC, hgrid]
        exact List.mem_cons_self _ _
      · rw [hgrid]
        exact List.mem_cons_of_mem _ hC.1
    · intro t ht
      rw [hgrid] at ht
      rcases List.mem_cons.mp ht with rfl | ht'
      · exact le_trans B (le_refl _)
      · exact D t ht'
    · intro t ht heq
      rw [hgrid] at ht
      rcases List.mem_cons.mp ht with rfl | ht'
      · rcases C with hC | hC
        · rw [hC]
        · exact absurd hC.2 (not_lt.mpr (le_of_eq heq.symm))
      · exact E t ht' heq
  · have hz : acc 0 = 0 := le_antisymm (not_lt.mp h0) (hacc ▸ accuracyAt_nonneg samples 0)
    have hstep : bestStep acc (0, 0) 0 = (0, 0) := by
      rw [bestStep, if_neg h0]
    rw [hstep] at hbf
    obtain ⟨A, B, C, D, E⟩ :=
      bestStep_foldl_spec acc _ ((0 : ℚ), (0 : ℚ)) hz gridTail_nonneg gridTail_sorted
    rw [← hbf] at A B C D E
    refine ⟨?_, A.symm, ?_, ?_⟩
    · rcases C with hC | hC
      · rw [hC, hgrid]
        exact List.mem_cons_self _ _
      · rw [hgrid]
        exact List.mem_cons_of_mem _ hC.1
    · intro t ht
      rw [hgrid] at ht
      rcases List.mem_cons.mp ht with rfl | ht'
      · rw [hz]
        exact B
      · exact D t ht'
    · intro t ht heq
      rw [hgrid] at ht
      rcases List.mem_cons.mp ht with rfl | ht'
      · rcases C with hC | hC
        · rw [hC]
        · rw [hz] at heq
          exact absurd hC.2 (not_lt.mpr (le_of_eq heq.symm))
      · exact E t ht' heq

set_option maxRecDepth 10000 in
/-- Claim C3: for every store yielding a non-empty sample set,
`compute_threshold` succeeds and returns the LOWEST grid threshold attaining
the maximal grid accuracy — the ascending scan with a strict `>` comparison
keeps the first (least) maximizer. -/
theorem c3_thm (ps : List JsonVal) (hne : deriveSamples ps ≠ []) :
    ∃ s, compute_threshold ps = .ok s ∧
      s.best_threshold ∈ thresholdGrid ∧
      s.accuracy = accuracyAt (deriveSamples ps) s.best_threshold ∧
      (∀ t ∈ thresholdGrid, accuracyAt (deriveSamples ps) t ≤ s.accuracy) ∧
      (∀ t ∈ thresholdGrid, accuracyAt (deriveSamples ps) t = s.accuracy →
        s.best_threshold ≤ t) := by
  have he : ¬((deriveSamples ps).isEmpty = true) := by
    rw [List.isEmpty_iff]
    exact hne
  obtain ⟨M, Acc, Max, Min⟩ := bestFold_spec (deriveSamples ps)
  refine ⟨{ best_threshold := (bestFold (deriveSamples ps)).1
            accuracy := (bestFold (deriveSamples ps)).2
            total := (deriveSamples ps).length
            positive := ((deriveSamples ps).filter (fun s => s.1)).length
            negative := ((deriveSamples ps).filter (fun s => !s.1)).length },
    ?_, M, Acc, Max, Min⟩
  simp only [compute_threshold]
  rw [if_neg he]

set_option maxRecDepth 10000 in
/-- Witness for C3 at a one-sample store. -/
theorem c3_witness :
    deriveSamples [JsonVal.vObj [("is_prompt_label", .vBool true),
        ("qwen_clipboard_pred",
          .vObj [("is_prompt", .vBool true), ("confidence", .vNum (mkRat 9 10))])]] ≠ [] ∧
    (∃ s, compute_threshold [JsonVal.vObj [("is_prompt_label", .vBool true),
        ("qwen_clipboard_pred",
          .vObj [("is_prompt", .vBool true), ("confidence", .vNum (mkRat 9 10))])]] = .ok s ∧
      s.best_threshold ∈ thresholdGrid ∧
      s.accuracy = accuracyAt (deriveSamples [JsonVal.vObj [("is_prompt_label", .vBool true),
        ("qwen_clipboard_pred",
          .vObj [("is_prompt", .vBool true), ("confidence", .vNum (mkRat 9 10))])]]) s.best_threshold ∧
      (∀ t ∈ thresholdGrid, accuracyAt (deriveSamples [JsonVal.vObj [("is_prompt_label", .vBool true),
        ("qwen_clipboard_pred",
          .vObj [("is_prompt", .vBool true), ("confidence", .vNum (mkRat 9 10))])]]) t ≤ s.accuracy) ∧
      (∀ t ∈ thresholdGrid, accuracyAt (deriveSamples [JsonVal.vObj [("is_prompt_label", .vBool true),
        ("qwen_clipboard_pred",
          .vObj [("is_prompt", .vBool true), ("confidence", .vNum (mkRat 9 10))])]]) t = s.accuracy →
        s.best_threshold ≤ t)) :=
  ⟨by decide, c3_thm _ (by decide)⟩

set_option maxRecDepth 10000 in
/-- Claim C2 (counterexample): for the input `"machine learning\nsecond part"`
(which has a non-empty first line `"machine learning"`), the analysis
record's topic is `"learning"` — the derived theme (top keyword) — not the
first non-empty line truncated to 32 characters. -/
theorem c2_counterexample :
    (summarize_prompt_with_vocab id cutModel "machine learning\nsecond part" []).topic =
      some "learning" ∧
    derive_topic "machine learning\nsecond part" = some "machine learning" ∧
    some "learning" ≠ some "machine learning" := by
  refine ⟨by decide, by decide, by decide⟩

/-- Claim C2 (amended): the record's topic equals the derived theme whenever
a theme exists; only when no theme is derived does the topic fall back to the
first non-empty line of the trimmed text truncated to 32 characters
(`derive_topic`). -/
theorem c2_amended_thm (reorder : List (String × Nat) → List (String × Nat))
    (cut : String → List String) (body : String) (vocab : List String) :
    (∀ th, (summarize_prompt_with_vocab reorder cut body vocab).theme = some th →
      (summarize_prompt_with_vocab reorder cut body vocab).topic = some th) ∧
    ((summarize_prompt_with_vocab reorder cut body vocab).theme = none →
      (summarize_prompt_with_vocab reorder cut body vocab).topic =
        derive_topic (trimString body)) := by
  simp only [summarize_prompt_with_vocab]
  constructor
  · intro th h
    rw [h]
  · intro h
    rw [h]

set_option maxRecDepth 10000 in
/-- Witness for C2 (amended) at the counterexample input. -/
theorem c2_amended_witness :
    (summarize_prompt_with_vocab id cutModel "machine learning\nsecond part" []).topic =
      some "learning" :=
  (c2_amended_thm id cutModel "machine learning\nsecond part" []).1 "learning" (by decide)

/-- Claim C9: an empty or whitespace-only input yields the fixed empty-input
summary, length 0, and the single suggested tag `"general"`. -/
theorem c9_thm (cut : String → List String) (body : String) (vocab : List String)
    (h : trimString body = "") :
    (summarize_prompt_with_vocab id cut body vocab).summary = emptySummaryMsg ∧
    (summarize_prompt_with_vocab id cut body vocab).length = 0 ∧
    (summarize_prompt_with_vocab id cut body vocab).suggested_tags = ["general"] := by
  simp only [summarize_prompt_with_vocab, h]
  simp [tokenize, extract_keywords, boost_vocabulary_terms, rankPairs, List.insertionSort]

/-- Witness for C9 on a whitespace-only input. -/
theorem c9_witness :
    trimString "  " = "" ∧
    ((summarize_prompt_with_vocab id (fun _ => []) "  " []).summary = emptySummaryMsg ∧
     (summarize_prompt_with_vocab id (fun _ => []) "  " []).length = 0 ∧
     (summarize_prompt_with_vocab id (fun _ => []) "  " []).suggested_tags = ["general"]) :=
  ⟨by decide, c9_thm (fun _ => []) "  " [] (by decide)⟩

lemma dropWhile_head_false (p : Char → Bool) :
    ∀ l : List Char, l.dropWhile p = [] ∨
      ∃ c t, l.dropWhile p = c :: t ∧ p c = false := by
  intro l
  induction l with
  | nil => exact Or.inl rfl
  | cons x xs ih =>
    by_cases hx : p x
    · rw [List.dropWhile_cons_of_pos hx]
      exact ih
    · rw [List.dropWhile_cons_of_neg hx]
      exact Or.inr ⟨x, xs, rfl, Bool.not_eq_true _ ▸ eq_false_of_ne_true hx⟩

lemma dropWhile_append_last (p : Char → Bool) (c : Char) (hc : p c = false) :
    ∀ xs : List Char, ∃ ys, (xs ++ [c]).dropWhile p = ys ++ [c] := by
  intro xs
  induction xs with
  | nil =>
    refine ⟨[], ?_⟩
    simp [List.dropWhile_cons, hc]
  | cons x xs ih =>
    by_cases hx : p x
    · rw [List.cons_append, List.dropWhile_cons_of_pos hx]
      exact ih
    · rw [List.cons_append, List.dropWhile_cons_of_neg hx]
      exact ⟨x :: xs, rfl⟩

/-- A trimmed character list is empty or starts with a character outside the
trimmed class. -/
lemma trimEnds_head (p : Char → Bool) (l : List Char) :
    trimEnds p l = [] ∨ ∃ c t, trimEnds p l = c :: t ∧ p c = false := by
  rcases dropWhile_head_false p l with h | ⟨c, t, h, hc⟩
  · left
    rw [trimEnds, h]
    rfl
  · right
    rw [trimEnds, h, List.reverse_cons]
    obtain ⟨ys, hys⟩ := dropWhile_append_last p c hc t.reverse
    rw [hys, List.reverse_append]
    exact ⟨c, ys.reverse, rfl, hc⟩

lemma mem_dropWhile (p : Char → Bool) (c : Char) (hc : p c = false) :
    ∀ l : List Char, c ∈ l → c ∈ l.dropWhile p := by
  intro l
  induction l with
  | nil => intro h; exact absurd h (List.not_mem_nil c)
  | cons x xs ih =>
    intro h
    by_cases hx : p x
    · rw [List.dropWhile_cons_of_pos hx]
      rcases List.mem_cons.mp h with rfl | h'
      · rw [hx] at hc
        exact absurd hc (by simp)
      · exact ih h'
    · rw [List.dropWhile_cons_of_neg hx]
      exact h

lemma mem_trimEnds (p : Char → Bool) (c : Char) (hc : p c = false) (l : List Char)
    (hm : c ∈ l) : c ∈ trimEnds p l := by
  rw [trimEnds]
  rw [List.mem_reverse]
  apply mem_dropWhile p c hc
  rw [List.mem_reverse]
  exact mem_dropWhile p c hc l hm

lemma mem_stripCr_head (c : Char) (l : List Char) (hc : c ≠ '\r') :
    c ∈ stripCr (c :: l) := by
  rw [stripCr]
  split
  · rename_i h
    cases l with
    | nil => simp at h; exact absurd h hc
    | cons x xs =>
      rw [List.dropLast_cons₂]
      exact List.mem_cons_self _ _
  · exact List.mem_cons_self _ _

lemma rustLines_cons_head (c : Char) (hn : c ≠ '\n') (t : List Char) :
    ∃ l ls, rustLines (c :: t) = (c :: l) :: ls := by
  rw [rustLines, if_neg hn]
  cases h : rustLines t with
  | nil => exact ⟨[], [], rfl⟩
  | cons l ls => exact ⟨l, ls, rfl⟩

/-- `derive_topic` succeeds on any string whose first character is not
whitespace. -/
lemma derive_topic_of_head (c : Char) (t : List Char) (hc : isRustWhite c = false)
    (s : String) (hs : s.toList = c :: t) : ∃ v, derive_topic s = some v := by
  have hn : c ≠ '\n' := by
    intro h
    rw [h] at hc
    exact absurd hc (by decide)
  have hr : c ≠ '\r' := by
    intro h
    rw [h] at hc
    exact absurd hc (by decide)
  obtain ⟨l, ls, hl⟩ := rustLines_cons_head c hn t
  have hmem : c ∈ trimChars (stripCr (c :: l)) :=
    mem_trimEnds isRustWhite c hc _ (mem_stripCr_head c l hr)
  have hne : (trimChars (stripCr (c :: l))).isEmpty = false := by
    cases hh : trimChars (stripCr (c :: l)) with
    | nil => rw [hh] at hmem; exact absurd hmem (List.not_mem_nil c)
    | cons a b => rfl
  rw [derive_topic, hs, hl, List.map_cons, List.find?_cons_of_pos]
  · exact ⟨_, rfl⟩
  · simp [hne]

/-- `derive_theme` succeeds whenever the topic fallback does. -/
lemma derive_theme_isSome (keywords targets : List String) (s : String)
    (hs : (derive_topic s).isSome = true) :
    (derive_theme keywords targets s).isSome = true := by
  rw [derive_theme.eq_def]
  cases targets with
  | cons a b => rfl
  | nil =>
    cases h : keywords.find? (fun token => !(token == "general")) with
    | some k => rfl
    | none => exact hs

set_option maxRecDepth 10000 in
/-- Claim C10: for every input whose trimmed body is non-empty, the analysis
record's theme and topic are both present: the theme falls back through
targets, then the first non-"general" keyword, then the first non-empty line
(which exists for non-empty trimmed input), and the topic reuses the theme. -/
theorem c10_thm (reorder : List (String × Nat) → List (String × Nat))
    (cut : String → List String) (body : String) (vocab : List String)
    (h : trimString body ≠ "") :
    (summarize_prompt_with_vocab reorder cut body vocab).theme.isSome = true ∧
    (summarize_prompt_with_vocab reorder cut body vocab).topic.isSome = true := by
  have htl : (trimString body).toList = trimChars body.toList := rfl
  obtain ⟨c, t, hct, hc⟩ :
      ∃ c t, (trimString body).toList = c :: t ∧ isRustWhite c = false := by
    rcases trimEnds_head isRustWhite body.toList with hnil | ⟨c, t, hct, hc⟩
    · exact absurd (congrArg String.mk hnil) h
    · exact ⟨c, t, htl.trans hct, hc⟩
  obtain ⟨v, hv⟩ := derive_topic_of_head c t hc _ hct
  have htopic : (derive_topic (trimString body)).isSome = true := by
    rw [hv]
    rfl
  have htheme :
      (derive_theme
        (if extract_keywords reorder (tokenize cut (trimString body)) (trimString body)
            vocab = [] then ["general"]
          else extract_keywords reorder (tokenize cut (trimString body)) (trimString body)
            vocab)
        (extract_targets (tokenize cut (trimString body))) (trimString body)).isSome = true :=
    derive_theme_isSome _ _ _ htopic
  constructor
  · simpa only [summarize_prompt_with_vocab] using htheme
  · simp only [summarize_prompt_with_vocab]
    cases hth : derive_theme
        (if extract_keywords reorder (tokenize cut (trimString body)) (trimString body)
            vocab = [] then ["general"]
          else extract_keywords reorder (tokenize cut (trimString body)) (trimString body)
            vocab)
        (extract_targets (tokenize cut (trimString body))) (trimString body) with
    | some th => rfl
    | none => exact htopic

set_option maxRecDepth 10000 in
/-- Witness for C10 on a concrete non-empty input. -/
theorem c10_witness :
    trimString "hello" ≠ "" ∧
    ((summarize_prompt_with_vocab id cutModel "hello" []).theme.isSome = true ∧
     (summarize_prompt_with_vocab id cutModel "hello" []).topic.isSome = true) :=
  ⟨by decide, c10_thm id cutModel "hello" [] (by decide)⟩

/-- Claim C7 (counterexample): `"模型"` (2 characters, 6 bytes) and `"hello"`
(5 characters, 5 bytes) with equal frequency 1 are ranked with `"模型"`
first, from either initial order, although `"hello"` is longer by character
count — the tie-break uses the Rust byte length, not the character count. -/
theorem c7_counterexample :
    rankPairs [("模型", 1), ("hello", 1)] = [("模型", 1), ("hello", 1)] ∧
    rankPairs [("hello", 1), ("模型", 1)] = [("模型", 1), ("hello", 1)] ∧
    "模型".toList.length < "hello".toList.length ∧
    extract_keywords id ["模型", "hello"] "x" [] = ["模型", "hello"] := by
  refine ⟨by decide, by decide, by decide, by decide⟩

/-- Claim C7 (amended): in the ranked keyword list, among entries with equal
frequency the token with the greater BYTE length (`String::len`) comes first,
and on equal byte length the lexicographically smaller token comes first. -/
theorem c7_amended_thm (freq : List (String × Nat)) (i j : Fin (rankPairs freq).length)
    (hij : i < j)
    (hcount : ((rankPairs freq).get i).2 = ((rankPairs freq).get j).2) :
    byteLen ((rankPairs freq).get j).1 ≤ byteLen ((rankPairs freq).get i).1 ∧
    (byteLen ((rankPairs freq).get i).1 = byteLen ((rankPairs freq).get j).1 →
      strLe ((rankPairs freq).get i).1 ((rankPairs freq).get j).1 = true) := by
  have hsorted : (rankPairs freq).Sorted kwRel := List.sorted_insertionSort kwRel freq
  have hrel : kwRel ((rankPairs freq).get i) ((rankPairs freq).get j) :=
    hsorted.rel_get_of_lt hij
  rcases hrel with h1 | ⟨h1, h1s⟩
  · exact absurd h1 (by omega)
  · rcases h1s with hl | ⟨hl, hs⟩
    · exact ⟨le_of_lt hl, fun he => absurd hl (by omega)⟩
    · exact ⟨le_of_eq hl.symm, fun _ => hs⟩

/-- Witness for C7 (amended) at a concrete two-element frequency list. -/
theorem c7_amended_witness :
    byteLen ((rankPairs [("ab", 1), ("cd", 1)]).get ⟨1, by decide⟩).1 ≤
      byteLen ((rankPairs [("ab", 1), ("cd", 1)]).get ⟨0, by decide⟩).1 ∧
    (byteLen ((rankPairs [("ab", 1), ("cd", 1)]).get ⟨0, by decide⟩).1 =
        byteLen ((rankPairs [("ab", 1), ("cd", 1)]).get ⟨1, by decide⟩).1 →
      strLe ((rankPairs [("ab", 1), ("cd", 1)]).get ⟨0, by decide⟩).1
        ((rankPairs [("ab", 1), ("cd", 1)]).get ⟨1, by decide⟩).1 = true) :=
  c7_amended_thm [("ab", 1), ("cd", 1)] ⟨0, by decide⟩ ⟨1, by decide⟩
    (by decide) (by decide)

/-- Claim C8: the analysis pipeline is deterministic in the sense that its
suggested tags, theme, role and target-entity lists do not depend on the
`HashMap` iteration order over token frequencies: any two enumeration orders
(modelled as permutation-producing `reorder` functions) yield identical
values for these four fields on every input and vocabulary. -/
theorem c8_thm (r1 r2 : List (String × Nat) → List (String × Nat))
    (cut : String → List String) (T : String) (V : List String)
    (h1 : ∀ l, List.Perm (r1 l) l) (h2 : ∀ l, List.Perm (r2 l) l) :
    (summarize_prompt_with_vocab r1 cut T V).suggested_tags =
      (summarize_prompt_with_vocab r2 cut T V).suggested_tags ∧
    (summarize_prompt_with_vocab r1 cut T V).theme =
      (summarize_prompt_with_vocab r2 cut T V).theme ∧
    (summarize_prompt_with_vocab r1 cut T V).role =
      (summarize_prompt_with_vocab r2 cut T V).role ∧
    (summarize_prompt_with_vocab r1 cut T V).target_entities =
      (summarize_prompt_with_vocab r2 cut T V).target_entities := by
  have hrank : ∀ l, rankPairs (r1 l) = rankPairs (r2 l) := by
    intro l
    refine List.eq_of_perm_of_sorted ?_
      (List.sorted_insertionSort kwRel (r1 l)) (List.sorted_insertionSort kwRel (r2 l))
    exact ((List.perm_insertionSort kwRel (r1 l)).trans (h1 l)).trans
      ((List.perm_insertionSort kwRel (r2 l)).trans (h2 l)).symm
  have hkw : ∀ tokens text,
      extract_keywords r1 tokens text V = extract_keywords r2 tokens text V := by
    intro tokens text
    simp only [extract_keywords]
    rw [hrank]
  simp only [summarize_prompt_with_vocab]
  rw [hkw (tokenize cut (trimString T)) (trimString T)]
  refine ⟨?_, ?_, ?_, ?_⟩ <;> trivial

set_option maxRecDepth 10000 in
/-- Witness for C8 with the identity and the reversing enumeration orders. -/
theorem c8_witness :
    (summarize_prompt_with_vocab id cutModel "alpha beta" []).suggested_tags =
      (summarize_prompt_with_vocab List.reverse cutModel "alpha beta" []).suggested_tags ∧
    (summarize_prompt_with_vocab id cutModel "alpha beta" []).theme =
      (summarize_prompt_with_vocab List.reverse cutModel "alpha beta" []).theme ∧
    (summarize_prompt_with_vocab id cutModel "alpha beta" []).role =
      (summarize_prompt_with_vocab List.reverse cutModel "alpha beta" []).role ∧
    (summarize_prompt_with_vocab id cutModel "alpha beta" []).target_entities =
      (summarize_prompt_with_vocab List.reverse cutModel "alpha beta" []).target_entities :=
  c8_thm id List.reverse cutModel "alpha beta" []
    (fun l => List.Perm.refl l) (fun l => List.reverse_perm l)
